import Mathlib

/-!
Verification development for the tax-policy ETL core
(`etl/transform/normalize_oecd_rev.py` and `etl/gold/build_metrics_oecd.py`).

Modelling conventions:
* pandas frames become Lean lists of records; a frame's rows keep their order;
* float values become exact rationals (`ℚ`); the source's decimal literals
  (`-0.005`, `100.0`, …) are read as the exact rationals they denote;
* `pandas.sort_values` on a key becomes a deterministic (stable, insertion)
  sort by that key; `groupby` aggregations become explicit folds over the
  rows sharing a key, with group keys emitted in sorted / first-seen order
  exactly as the call sites produce them;
* a Python `raise` / failed `assert` becomes `Except.error`.
-/

namespace TaxExplorer

/-- Lexicographic strict order on character lists (by code point), the order
Python and pandas use to compare and sort strings. -/
def ltChars : List Char → List Char → Bool
  | [], [] => false
  | [], _ :: _ => true
  | _ :: _, [] => false
  | a :: as, b :: bs => if a < b then true else if b < a then false else ltChars as bs

/-- Strict `<` on strings (lexicographic by code point). -/
def ltStr (a b : String) : Bool :=
  ltChars a.data b.data

/-- `≤` on strings: not strictly greater. -/
def leStr (a b : String) : Bool :=
  !ltStr b a

/-- Python's `str.lower()` on the ASCII data at hand. -/
def lowerS (s : String) : String :=
  ⟨s.data.map Char.toLower⟩

/-- Python's `str.upper()` on the ASCII data at hand. -/
def upperS (s : String) : String :=
  ⟨s.data.map Char.toUpper⟩

/-- Python's `str.strip()`: remove leading and trailing whitespace. -/
def trimS (s : String) : String :=
  ⟨((s.data.dropWhile Char.isWhitespace).reverse.dropWhile Char.isWhitespace).reverse⟩

/-- A canonical (silver) observation row as consumed by the gold derivers:
the columns of the `pct_gdp` slice that `tax_to_gdp_from_pct_or_total` and
`composition_from_pct` actually read. -/
structure Row where
  iso3 : String
  year : Int
  tax_code : String
  value : ℚ
deriving DecidableEq, Repr

/-- The group key `(iso3, year)` used by every `groupby`/`sort_values` in the
gold builder. -/
def rkey (r : Row) : String × Int := (r.iso3, r.year)

/-- `TOTAL_RE = ^(?:TAX|TOT|TOTAL(?:_NET|_GROSS|_FSSB)?|TOTALTAX|TOTAL_TAX)$`,
case-insensitive, applied to the upper-cased code by `_is_total`
(`build_metrics_oecd.py` lines 13-17).  The anchored alternation is exactly a
finite set of upper-case strings. -/
def isTotal (code : String) : Bool :=
  let u := upperS code
  u == "TAX" || u == "TOT" || u == "TOTAL" || u == "TOTAL_NET" ||
    u == "TOTAL_GROSS" || u == "TOTAL_FSSB" || u == "TOTALTAX" || u == "TOTAL_TAX"

/-- Lexicographic `≤` on the `(iso3, year)` sort key of `sort_values(["iso3","year"])`. -/
def keyLe (a b : String × Int) : Bool :=
  ltStr a.1 b.1 || (a.1 == b.1 && decide (a.2 ≤ b.2))

/-- Insert a row into a list sorted by `keyLe`, before any row of an equal key
(so the overall sort is stable). -/
def insertRow (r : Row) : List Row → List Row
  | [] => [r]
  | s :: ss => if keyLe (rkey r) (rkey s) then r :: s :: ss else s :: insertRow r ss

/-- `sort_values(["iso3", "year"])`: sort the rows by `(iso3, year)`,
modelled as a stable sort. -/
def sortRows : List Row → List Row
  | [] => []
  | r :: rs => insertRow r (sortRows rs)

/-- Fuelled worker for `groupFirst` (the recursion removes at least one row
per step, so `l.length` fuel always suffices; the fuel only makes the
recursion structural). -/
def groupFirstAux : Nat → List Row → List ((String × Int) × ℚ)
  | _, [] => []
  | 0, _ :: _ => []
  | n + 1, r :: rs =>
      (rkey r, r.value) :: groupFirstAux n (rs.filter (fun s => !(rkey s == rkey r)))

/-- `groupby(["iso3","year"], as_index=False)["value"].first()` on a frame:
one entry per key, holding the value of the first row of that key in frame
order.  (At the call site the frame is already key-sorted, so group keys come
out in the sorted order pandas produces; the canonical values are non-null
rationals, on which pandas `.first()` — first non-null — is the plain head.) -/
def groupFirst (l : List Row) : List ((String × Int) × ℚ) :=
  groupFirstAux l.length l

/-- Fuelled worker for `groupSum`. -/
def groupSumAux : Nat → List Row → List ((String × Int) × ℚ)
  | _, [] => []
  | 0, _ :: _ => []
  | n + 1, r :: rs =>
      (rkey r, r.value + ((rs.filter (fun s => rkey s == rkey r)).map Row.value).sum)
        :: groupSumAux n (rs.filter (fun s => !(rkey s == rkey r)))

/-- `groupby(["iso3","year"], as_index=False)["value"].sum()` on a frame:
one entry per key, holding the sum of the values of that key's rows. -/
def groupSum (l : List Row) : List ((String × Int) × ℚ) :=
  groupSumAux l.length l

/-- Insert a rational into a `≤`-sorted list (for the sort inside `median`). -/
def insertQ (x : ℚ) : List ℚ → List ℚ
  | [] => [x]
  | y :: ys => if x ≤ y then x :: y :: ys else y :: insertQ x ys

/-- Sort a list of rationals ascending. -/
def sortQ : List ℚ → List ℚ
  | [] => []
  | x :: xs => insertQ x (sortQ xs)

/-- `pandas.Series.median` on a non-empty numeric series: the middle element
of the sorted values, or the mean of the two middle elements when the length
is even.  (On an empty series pandas yields NaN, for which every `<`
comparison is false; returning `1` here makes the `median < 1` test at the
call site false in that case, matching NaN semantics.) -/
def median (l : List ℚ) : ℚ :=
  let s := sortQ l
  let n := s.length
  if n = 0 then 1
  else if n % 2 = 1 then s.getD (n / 2) 0
  else (s.getD (n / 2 - 1) 0 + s.getD (n / 2) 0) / 2

/-- `tax_to_gdp_from_pct_or_total` (`build_metrics_oecd.py` lines 28-49):
raise if the `pct_gdp` slice is empty; if any total-sentinel rows exist take,
per `(iso3, year)`, the first total row after sorting, else sum the category
rows per `(iso3, year)`; finally multiply every value by 100 when the median
of the aggregated values is below 1. -/
def tax_to_gdp_from_pct_or_total (pct : List Row) :
    Except String (List ((String × Int) × ℚ)) :=
  if pct.isEmpty then .error "No pct_gdp rows in silver"
  else
    let totals := pct.filter (fun r => isTotal r.tax_code)
    let t2g :=
      if !totals.isEmpty then groupFirst (sortRows totals)
      else groupSum (sortRows (pct.filter (fun r => !isTotal r.tax_code)))
    .ok (if median (t2g.map Prod.snd) < 1
         then t2g.map (fun p => (p.1, p.2 * 100))
         else t2g)

/-- An output row of the composition table: `["iso3", "year", "tax_code", "share_pct"]`. -/
structure CompRow where
  iso3 : String
  year : Int
  tax_code : String
  share_pct : ℚ
deriving DecidableEq, Repr

/-- The `(iso3, year)` group key of a composition row. -/
def ckey (c : CompRow) : String × Int := (c.iso3, c.year)

/-- `groupby(["iso3","year"])["value"].transform("sum")` evaluated at key `k`:
the sum of `value` over the rows of the frame whose key is `k`. -/
def keySum (l : List Row) (k : String × Int) : ℚ :=
  ((l.filter (fun r => rkey r == k)).map Row.value).sum

/-- `groupby(["iso3","year"])["share_pct"].transform("sum")` (and the per-group
`.sum()`) evaluated at key `k`. -/
def csum (l : List CompRow) (k : String × Int) : ℚ :=
  ((l.filter (fun c => ckey c == k)).map CompRow.share_pct).sum

/-- The maximum `share_pct` within the key-`k` group (the value
`groupby(...)["share_pct"].idxmax()` locates). -/
def groupMax (l : List CompRow) (k : String × Int) : ℚ :=
  (((l.filter (fun c => ckey c == k)).map CompRow.share_pct).max?).getD 0

/-- `groupby(["iso3","year"])["share_pct"].idxmax()` for key `k`: the position
of the first row of the group attaining the group's maximum share (pandas
breaks ties by first occurrence in frame order). -/
def firstMaxIdx (l : List CompRow) (k : String × Int) : Option Nat :=
  l.findIdx? (fun c => ckey c == k && c.share_pct == groupMax l k)

/-- Step 5 of `composition_from_pct` (lines 91-97): build the `add` series
holding each group's residual `100 - gsum` at that group's `idxmax` position
and `0` elsewhere, add it, then clamp at 0 (`.clip(lower=0).fillna(0)`). -/
def residApply (l : List CompRow) : List CompRow :=
  l.enum.map (fun p =>
    if firstMaxIdx l (ckey p.2) = some p.1
    then { p.2 with share_pct := max 0 (p.2.share_pct + (100 - csum l (ckey p.2))) }
    else { p.2 with share_pct := max 0 p.2.share_pct })

/-- `.round(6)` of a rational: round to six decimal digits.  (numpy rounds
half-to-even while `round` here rounds half away from even at `.5` ties; the
two agree except at exact half-ulp ties, and every value this development
feeds in is an exact integer, where they coincide.) -/
def round6 (q : ℚ) : ℚ :=
  ((round (q * 1000000) : ℤ) : ℚ) / 1000000

/-- `pct.loc[~_is_total(pct["tax_code"]), cols]`: the category (non-total) rows. -/
def catRows (pct : List Row) : List Row :=
  pct.filter (fun r => !isTotal r.tax_code)

/-- Step 0 of `composition_from_pct` (lines 64-69): numeric coercion with
`.fillna(0.0)` and `.clip(lower=0.0)`.  On the (non-null rational) canonical
values this is exactly clamping at 0. -/
def clampRows (l : List Row) : List Row :=
  l.map (fun r => { r with value := max 0 r.value })

/-- Step 1 of `composition_from_pct` (lines 71-73): keep only rows of groups
whose clamped value sum is positive. -/
def keptRows (pct : List Row) : List Row :=
  (clampRows (catRows pct)).filter
    (fun r => decide (0 < keySum (clampRows (catRows pct)) (rkey r)))

/-- Step 2 of `composition_from_pct` (lines 79-81): the vectorized
`share_pct = value / group_sum * 100` over the kept rows. -/
def rawShares (pct : List Row) : List CompRow :=
  (keptRows pct).map (fun r =>
    ⟨r.iso3, r.year, r.tax_code, r.value / keySum (keptRows pct) (rkey r) * 100⟩)

/-- `composition_from_pct` (`build_metrics_oecd.py` lines 52-105): filter to
category rows (raise when none), clamp values, drop zero-sum groups (return
the empty frame when nothing is left), derive shares, defensively clamp,
renormalize each positive-sum group to 100, apply the largest-remainder
residual fix, and run the final assertions (share nonnegativity and
six-decimal group sums of 100) before returning.  A failed `assert` is an
`Except.error`.

The schema check of lines 54-57 is vacuous here: a `List Row` always has the
four required fields. -/
def composition_from_pct (pct : List Row) : Except String (List CompRow) :=
  if (catRows pct).isEmpty then
    .error "No category-level pct_gdp rows to derive composition"
  else if (keptRows pct).isEmpty then .ok []
  else
    let comp0 := rawShares pct
    let comp1 := comp0.map (fun c => { c with share_pct := max 0 c.share_pct })
    let comp2 := comp1.map (fun c =>
      if 0 < csum comp1 (ckey c)
      then { c with share_pct := c.share_pct * (100 / csum comp1 (ckey c)) }
      else c)
    let comp3 := residApply comp2
    if comp3.all (fun c => decide (0 ≤ c.share_pct)) then
      if (comp3.map ckey).all (fun k => round6 (csum comp3 k) == 100) then .ok comp3
      else .error "composition sums not 100"
    else .error "share_pct has negatives after fix"

/-! ### `normalize_oecd_rev.py`: column resolution, sanitizing, classification -/

/-- Python's substring test `needle in hay` on strings, over character lists. -/
def listContains (needle : List Char) : List Char → Bool
  | [] => needle.isEmpty
  | c :: t => needle.isPrefixOf (c :: t) || listContains needle t

/-- Python's `needle in hay` substring test on strings. -/
def containsSub (needle hay : String) : Bool :=
  listContains needle.data hay.data

/-- A regex word character (`\w` over the ASCII data at hand): letter, digit
or underscore. -/
def isWordChar (c : Char) : Bool :=
  c.isAlphanum || c == '_'

/-- Whether a `\b` word boundary holds between the previous character (none at
the start of the string) and a following word character. -/
def boundaryOk : Option Char → Bool
  | none => true
  | some c => !isWordChar c

/-- The word-token `tok` (all of whose characters are word characters) matches
at the head of `rest` with a trailing `\b`: `tok` is a literal head and the
next character, if any, is a non-word character. -/
def wordAt (tok rest : List Char) : Bool :=
  tok.isPrefixOf rest &&
    (match rest.drop tok.length with
     | [] => true
     | c :: _ => !isWordChar c)

/-- Scan of `\btok\b` over a string, carrying the previous character for the
leading boundary. -/
def containsWordAux (tok : List Char) : Option Char → List Char → Bool
  | _, [] => false
  | prev, c :: cs =>
      (boundaryOk prev && wordAt tok (c :: cs)) || containsWordAux tok (some c) cs

/-- `re.search(r"\btok\b", s)` for a token made of word characters. -/
def containsWord (tok s : String) : Bool :=
  containsWordAux tok.data none s.data

/-- Insert with the `le` comparison, before any equal element (stable). -/
def insertBy (le : α → α → Bool) (x : α) : List α → List α
  | [] => [x]
  | y :: ys => if le x y then x :: y :: ys else y :: insertBy le x ys

/-- Stable insertion sort with the `le` comparison. -/
def insSortBy (le : α → α → Bool) : List α → List α
  | [] => []
  | x :: xs => insertBy le x (insSortBy le xs)

/-- The Python dict assignment `m[k] = v` on an insertion-ordered association
list: an existing key keeps its position and gets the new value, a new key is
appended. -/
def dictInsert (m : List (String × String)) (k v : String) : List (String × String) :=
  if m.any (fun p => p.1 == k) then m.map (fun p => if p.1 == k then (k, v) else p)
  else m ++ [(k, v)]

/-- `low = {c.lower(): c for c in df.columns}` (`normalize_oecd_rev.py` line
17): keys in first-occurrence order, values the last column with that
lower-casing. -/
def lowmap (cols : List String) : List (String × String) :=
  cols.foldl (fun m c => dictInsert m (lowerS c) c) []

/-- Python dict lookup `m[k]` / `k in m` on the association list. -/
def dictGet? (m : List (String × String)) (k : String) : Option String :=
  (m.find? (fun p => p.1 == k)).map Prod.snd

/-- `pick_col` (`normalize_oecd_rev.py` lines 16-26): first an exact
case-insensitive pass returning on the first candidate whose lower-casing is a
key of `low`; then a substring pass returning, for the first candidate that
has one, the first entry of `low` whose key contains the candidate's
lower-casing; else `None`.  Total — it never raises. -/
def pick_col (cols : List String) (cands : List String) : Option String :=
  match cands.find? (fun c => (dictGet? (lowmap cols) (lowerS c)).isSome) with
  | some c => dictGet? (lowmap cols) (lowerS c)
  | none =>
      cands.findSome? (fun c =>
        ((lowmap cols).find? (fun p => containsSub (lowerS c) p.1)).map Prod.snd)

/-- The `area_code` resolution of `normalize` (line 54). -/
def areaCodeCol (cols : List String) : Option String :=
  pick_col cols ["REF_AREA", "REF_AREA_CODE", "REF_AREA.ID", "Reference area code"]

/-- The `area_name` resolution of `normalize` (line 55). -/
def areaNameCol (cols : List String) : Option String :=
  pick_col cols ["Reference area", "REF_AREA_LABEL", "Country", "Country name"]

/-- The `rev_code` resolution of `normalize` (lines 56-58). -/
def revCodeCol (cols : List String) : Option String :=
  pick_col cols ["REVENUE_CODE", "Revenue code", "STANDARD_REVENUE", "Revenue category", "REVENUE"]

/-- The `time_col` resolution of `normalize` (line 59). -/
def timeCol (cols : List String) : Option String :=
  pick_col cols ["TIME_PERIOD", "Time period", "time", "year", "Year"]

/-- The `val_col` resolution of `normalize` (line 60). -/
def valCol (cols : List String) : Option String :=
  pick_col cols ["OBS_VALUE", "Observation value", "value", "Value"]

/-- The `need` list and `missing` computation of `normalize` (lines 66-72):
the required canonical fields whose column could not be resolved, in the
order they are declared.  `area_code or area_name` is `Option.orElse`:
`pick_col` can only return an actual column name, and a column name that is
the empty (falsy) string never matches any of these non-empty candidates. -/
def requiredMissing (cols : List String) : List String :=
  (([("area", ((areaCodeCol cols).orElse fun _ => areaNameCol cols)),
     ("revenue_code", revCodeCol cols),
     ("time", timeCol cols),
     ("value", valCol cols)] : List (String × Option String)).filter
    (fun p => p.2.isNone)).map Prod.fst

/-- Lines 72-74 of `normalize`: raise `KeyError` with the missing-field list
and the observed columns when any required field is unresolved, else proceed.
The error payload carries exactly what the `KeyError` message interpolates:
`missing` and `list(df.columns)`. -/
def normalizeColumnCheck (cols : List String) : Except (List String × List String) Unit :=
  let missing := requiredMissing cols
  if missing.isEmpty then .ok () else .error (missing, cols)

/-- A row of the projected frame `sub` (lines 76-99 of `normalize`), after the
year filter and numeric coercion, in the case where all of the optional
unit/measure columns were resolved and the value parsed (the canonical
observation of the spec's data model has a non-null value).  String cells are
the raw cell text; `_lower` is applied at use sites. -/
structure SubRow where
  iso3 : String
  country : String
  tax_code : String
  year : Int
  value : ℚ
  unit_code : String
  unit : String
  measure_code : String
  measure : String
deriving DecidableEq, Repr

/-- `mc = _lower(sub["measure_code"])` for one row. -/
def mcOf (r : SubRow) : String := lowerS r.measure_code

/-- `uc = _lower(sub["unit_code"])` for one row. -/
def ucOf (r : SubRow) : String := lowerS r.unit_code

/-- `combo = (ml.fillna("") + " " + ul.fillna("")).str.strip()` for one row. -/
def comboOf (r : SubRow) : String :=
  trimS (lowerS r.measure ++ " " ++ lowerS r.unit)

/-- The code-hint side of the GDP% detector: the regex
`\bpc[_]?gdp\b|\bpct[_]?gdp\b|\bpcgdp\b` (line 112), whose anchored-token
alternatives are `pc_gdp`, `pcgdp`, `pct_gdp`, `pctgdp` (the third branch
repeats `pcgdp`). -/
def gdpCodeHit (s : String) : Bool :=
  containsWord "pc_gdp" s || containsWord "pcgdp" s ||
    containsWord "pct_gdp" s || containsWord "pctgdp" s

/-- The label regex `(?:percent|percentage|%)` (line 115): an unanchored
alternation, i.e. a substring test for any of its branches. -/
def pctToken (s : String) : Bool :=
  containsSub "percent" s || containsSub "percentage" s || containsSub "%" s

/-- `is_gdp` (lines 111-118): code hint on `measure_code` or `unit_code`, or
the combined label carries both a percentage token and a `\bgdp\b` token. -/
def isGdpRow (r : SubRow) : Bool :=
  gdpCodeHit (mcOf r) || gdpCodeHit (ucOf r) ||
    (pctToken (comboOf r) && containsWord "gdp" (comboOf r))

/-- `is_share` (lines 121-128): `share` as a substring of a code hint, or the
combined label carries both `\bshare\b` and `\btotal\b`. -/
def isShareRow (r : SubRow) : Bool :=
  containsSub "share" (mcOf r) || containsSub "share" (ucOf r) ||
    (containsWord "share" (comboOf r) && containsWord "total" (comboOf r))

/-- `df["value"].between(-0.005, 0, inclusive="left")`: the left-closed
clamping band `-0.005 ≤ v < 0`. -/
def tinyP (v : ℚ) : Bool :=
  decide (-0.005 ≤ v) && decide (v < 0)

/-- `df["value"] < -0.005`: materially negative values to drop. -/
def negP (v : ℚ) : Bool :=
  decide (v < -0.005)

/-- The row-wise effect of `df.loc[tiny_mask, "value"] = 0.0` (line 42): a row
in the clamp band gets value `0.0`, any other row is untouched. -/
def clampTinyRow (r : SubRow) : SubRow :=
  if tinyP r.value then { r with value := 0 } else r

/-- `_sanitize` (`normalize_oecd_rev.py` lines 33-45): on the empty frame
return `(df, 0, 0)`; otherwise count the clamp band and the drop band, set
clamped values to `0.0` (only when any exist — a no-op guard) and filter out
the dropped rows (again only when any exist). -/
def sanitize (df : List SubRow) : List SubRow × Nat × Nat :=
  if df.isEmpty then (df, 0, 0)
  else
    let tiny := df.countP (fun r => tinyP r.value)
    let dropped := df.countP (fun r => negP r.value)
    let df1 := if tiny ≠ 0 then df.map clampTinyRow else df
    let df2 := if dropped ≠ 0 then df1.filter (fun r => !negP r.value) else df1
    (df2, tiny, dropped)

/-- The lexicographic `≤` of `sort_values(["iso3", "year", "metric",
"tax_code"])` (line 164) on a (row, metric) pair. -/
def silverLe (a b : SubRow × String) : Bool :=
  ltStr a.1.iso3 b.1.iso3 || (a.1.iso3 == b.1.iso3 &&
    (decide (a.1.year < b.1.year) || (a.1.year == b.1.year &&
      (ltStr a.2 b.2 || (a.2 == b.2 && leStr a.1.tax_code b.1.tax_code)))))

/-- The classification-and-assembly tail of `normalize` (lines 110-166):
filter `sub` by each heuristic independently, sanitize each slice, tag the
GDP slice `pct_gdp` and the share slice `share_total`, concatenate and sort.
The result is the silver table as a list of (row, metric) pairs.  The pandera
schema validation of lines 143-157 is a pure pass/fail gate that never drops
or re-tags a row: runs on which it raises produce no silver table and are
outside this function's model (the membership theorem below restricts itself
to inputs on which the validation passes). -/
def silverOf (rows : List SubRow) : List (SubRow × String) :=
  let dfGdp := (sanitize (rows.filter isGdpRow)).1
  let dfShare := (sanitize (rows.filter isShareRow)).1
  insSortBy silverLe
    (dfGdp.map (fun r => (r, "pct_gdp")) ++ dfShare.map (fun r => (r, "share_total")))

/-! ### Helper lemmas and theorems -/

/-- The per-row effect of `_sanitize`: drop the materially negative rows,
clamp the rest. -/
def sanitizeStep (r : SubRow) : Option SubRow :=
  if negP r.value then none else some (clampTinyRow r)

lemma negP_clampTinyRow (r : SubRow) : negP (clampTinyRow r).value = negP r.value := by
  unfold clampTinyRow
  by_cases h : tinyP r.value = true
  · have hv : ¬r.value < 0 → False := by
      intro hc
      simp only [tinyP, Bool.and_eq_true, decide_eq_true_eq] at h
      exact hc h.2
    simp only [h, if_pos]
    have h1 : negP (0 : ℚ) = false := by simp [negP]; norm_num
    have h2 : negP r.value = false := by
      simp only [tinyP, Bool.and_eq_true, decide_eq_true_eq] at h
      simp only [negP, decide_eq_false_iff_not, not_lt]
      exact h.1
    simp [h1, h2]
  · simp [h]

lemma map_clamp_filter_eq_filterMap (l : List SubRow) :
    (l.map clampTinyRow).filter (fun r => !negP r.value) = l.filterMap sanitizeStep := by
  induction l with
  | nil => rfl
  | cons r rs ih =>
    simp only [List.map_cons, List.filter_cons, List.filterMap_cons, sanitizeStep,
      negP_clampTinyRow]
    by_cases h : negP r.value = true
    · simp [h, ih]
    · simp only [Bool.not_eq_true] at h
      simp [h, ih]

/-- `_sanitize` in closed form: the surviving rows are the non-dropped rows
with tiny negatives clamped, in order, and the two counters count the clamp
band and the drop band of the input. -/
lemma sanitize_eq (df : List SubRow) :
    sanitize df = (df.filterMap sanitizeStep,
      df.countP (fun r => tinyP r.value), df.countP (fun r => negP r.value)) := by
  match df with
  | [] => rfl
  | r :: rs =>
    unfold sanitize
    simp only [List.isEmpty_cons, Bool.false_eq_true, if_false]
    set l := r :: rs with hl
    have hfm : (l.map clampTinyRow).filter (fun r => !negP r.value) = l.filterMap sanitizeStep :=
      map_clamp_filter_eq_filterMap l
    by_cases ht : l.countP (fun r => tinyP r.value) = 0
    · have hmap : l.map clampTinyRow = l := by
        have := List.countP_eq_zero.mp ht
        have : ∀ x ∈ l, clampTinyRow x = x := by
          intro x hx
          unfold clampTinyRow
          simp [this x hx]
        calc l.map clampTinyRow = l.map id := List.map_congr_left (by simpa using this)
          _ = l := l.map_id
      by_cases hd : l.countP (fun r => negP r.value) = 0
      · have hfil : l.filter (fun r => !negP r.value) = l := by
          rw [List.filter_eq_self]
          intro a ha
          simp [List.countP_eq_zero.mp hd a ha]
        simp only [ht, hd, ne_eq, not_true_eq_false, if_false]
        rw [← hfm, hmap, hfil]
      · simp only [ht, hd, ne_eq, not_true_eq_false, if_false, not_false_eq_true, if_true]
        rw [← hfm, hmap]
    · by_cases hd : l.countP (fun r => negP r.value) = 0
      · have hfil : (l.map clampTinyRow).filter (fun r => !negP r.value) = l.map clampTinyRow := by
          rw [List.filter_eq_self]
          intro a ha
          rcases List.mem_map.mp ha with ⟨b, hb, rfl⟩
          simp [negP_clampTinyRow, List.countP_eq_zero.mp hd b hb]
        simp only [ht, hd, ne_eq, not_false_eq_true, if_true, not_true_eq_false, if_false]
        rw [← hfm, hfil]
      · simp only [ht, hd, ne_eq, not_false_eq_true, if_true]
        rw [hfm]

/-- **C3**: the Value Sanitizer drops exactly the rows with `value < -0.005`
(counting them in `dropped_count`), replaces the value of the remaining
negative rows — those in `[-0.005, 0)` — by `0.0` (counting the clamp band in
`tiny_clamped_count`), and passes every row with `value ≥ 0` through
unchanged, preserving order.  In particular every value in the claim's open
band `(-0.005, 0)` is clamped and counted, every value `< -0.005` is removed
and counted, and every nonnegative value is untouched. -/
theorem sanitizer_partitions_values (df : List SubRow) :
    (sanitize df).1 = df.filterMap (fun r =>
        if r.value < -0.005 then none
        else if r.value < 0 then some { r with value := 0 } else some r) ∧
    (sanitize df).2.1 = df.countP (fun r => decide (-0.005 ≤ r.value ∧ r.value < 0)) ∧
    (sanitize df).2.2 = df.countP (fun r => decide (r.value < -0.005)) := by
  rw [sanitize_eq]
  refine ⟨?_, ?_, ?_⟩
  · apply List.filterMap_congr
    intro r _
    unfold sanitizeStep clampTinyRow negP tinyP
    by_cases h1 : r.value < -0.005
    · simp [h1]
    · have h1' : -0.005 ≤ r.value := not_lt.mp h1
      by_cases h2 : r.value < 0 <;> simp [h1, h1', h2]
  · apply List.countP_congr
    intro r _
    by_cases h1 : (-0.005 : ℚ) ≤ r.value <;> by_cases h2 : r.value < 0 <;>
      simp [tinyP, h1, h2]
  · apply List.countP_congr
    intro r _
    simp [negP]

/-- **C10**: a value exactly equal to `-0.005` sits in the sanitizer's
left-closed clamp band: the row survives with its value replaced by `0.0`, it
is counted in `tiny_clamped_count`, and it is not counted in (nor removed by)
`dropped_count` — the clamping interval is closed at `-0.005`. -/
theorem sanitizer_boundary_clamped (pre post : List SubRow) (r : SubRow)
    (h : r.value = -0.005) :
    (sanitize (pre ++ r :: post)).1 =
      (sanitize pre).1 ++ { r with value := 0 } :: (sanitize post).1 ∧
    (sanitize (pre ++ r :: post)).2.1 = (sanitize pre).2.1 + ((sanitize post).2.1 + 1) ∧
    (sanitize (pre ++ r :: post)).2.2 = (sanitize pre).2.2 + (sanitize post).2.2 := by
  have htiny : tinyP r.value = true := by
    simp only [tinyP, h, Bool.and_eq_true, decide_eq_true_eq]
    norm_num
  have hneg : negP r.value = false := by
    simp only [negP, h, decide_eq_false_iff_not]
    norm_num
  have hstep : sanitizeStep r = some { r with value := 0 } := by
    unfold sanitizeStep clampTinyRow
    simp [hneg, htiny]
  simp only [sanitize_eq, List.filterMap_append, List.filterMap_cons, hstep,
    List.countP_append, List.countP_cons, htiny, hneg]
  refine ⟨trivial, ?_, ?_⟩ <;> simp

/-! ### Column Resolver -/

/-- The Column Resolver exactly as the spec describes it, over the column
list directly (no intermediate dictionary): (1) return the first candidate's
(unique) exact case-insensitive column match; (2) otherwise, scanning
candidates in order, return the first column whose lower-cased name contains
the candidate's lower-casing as a substring; (3) otherwise `none`. -/
def pickColSpec (cols cands : List String) : Option String :=
  match cands.find? (fun c => cols.any (fun col => lowerS col == lowerS c)) with
  | some c => cols.find? (fun col => lowerS col == lowerS c)
  | none =>
      cands.findSome? (fun c =>
        cols.find? (fun col => containsSub (lowerS c) (lowerS col)))

lemma foldl_dictInsert_eq (cols : List String) :
    ∀ m : List (String × String),
      (∀ c ∈ cols, ∀ p ∈ m, p.1 ≠ lowerS c) →
      (cols.map lowerS).Nodup →
      cols.foldl (fun m c => dictInsert m (lowerS c) c) m
        = m ++ cols.map (fun c => (lowerS c, c)) := by
  induction cols with
  | nil => intro m _ _; simp
  | cons c cs ih =>
    intro m hdisj hnd
    have hnotin : ¬m.any (fun p => p.1 == lowerS c) = true := by
      simp only [List.any_eq_true, beq_iff_eq, not_exists, not_and]
      intro p hp
      exact hdisj c (by simp) p hp
    have hstep : dictInsert m (lowerS c) c = m ++ [(lowerS c, c)] := by
      unfold dictInsert
      rw [if_neg hnotin]
    simp only [List.foldl_cons, hstep]
    rw [ih (m ++ [(lowerS c, c)]) ?_ ?_]
    · simp
    · intro d hd p hp
      rcases List.mem_append.mp hp with hpm | hpc
      · exact hdisj d (by simp [hd]) p hpm
      · simp only [List.mem_singleton] at hpc
        subst hpc
        simp only [List.map_cons, List.nodup_cons] at hnd
        intro hc
        have hc' : lowerS c = lowerS d := hc
        exact hnd.1 (by rw [hc']; exact List.mem_map_of_mem lowerS hd)
    · simp only [List.map_cons, List.nodup_cons] at hnd
      exact hnd.2

lemma lowmap_eq_map (cols : List String) (h : (cols.map lowerS).Nodup) :
    lowmap cols = cols.map (fun c => (lowerS c, c)) := by
  unfold lowmap
  simpa using foldl_dictInsert_eq cols [] (by simp) h

lemma dictGet?_map (cols : List String) (k : String) :
    dictGet? (cols.map (fun c => (lowerS c, c))) k
      = cols.find? (fun col => lowerS col == k) := by
  unfold dictGet?
  rw [List.find?_map]
  have : ((fun p : String × String => p.1 == k) ∘ fun c => (lowerS c, c))
      = fun col => lowerS col == k := rfl
  rw [this]
  cases cols.find? (fun col => lowerS col == k) <;> rfl

/-- **C8**: on a table whose lower-cased column names are distinct (so that
"the column matching a candidate case-insensitively" is well defined),
`pick_col` behaves exactly as specified: it returns the column exactly
matching the earliest candidate case-insensitively when one exists, else —
scanning candidates in order — the first column containing the candidate as a
case-insensitive substring, else the explicit not-found signal `none`.  Being
a total function into `Option`, it never raises. -/
theorem pick_col_follows_spec (cols cands : List String)
    (h : (cols.map lowerS).Nodup) :
    pick_col cols cands = pickColSpec cols cands := by
  have hget : ∀ k : String, dictGet? (lowmap cols) k
      = cols.find? (fun col => lowerS col == k) := by
    intro k
    rw [lowmap_eq_map cols h, dictGet?_map]
  have hpred : (fun c : String => (dictGet? (lowmap cols) (lowerS c)).isSome)
      = fun c : String => cols.any (fun col => lowerS col == lowerS c) := by
    funext c
    rw [hget, Bool.eq_iff_iff, List.find?_isSome, List.any_eq_true]
  have hsub : (fun c : String =>
        ((lowmap cols).find? (fun p => containsSub (lowerS c) p.1)).map Prod.snd)
      = fun c : String => cols.find? (fun col => containsSub (lowerS c) (lowerS col)) := by
    funext c
    rw [lowmap_eq_map cols h, List.find?_map]
    have hco : ((fun p : String × String => containsSub (lowerS c) p.1)
        ∘ fun col => (lowerS col, col)) = fun col => containsSub (lowerS c) (lowerS col) := rfl
    rw [hco]
    cases cols.find? (fun col => containsSub (lowerS c) (lowerS col)) <;> rfl
  unfold pick_col pickColSpec
  rw [hpred, hsub]
  cases hfind : cands.find? (fun c => cols.any fun col => lowerS col == lowerS c) with
  | some c => simp only [hget]
  | none => simp only

/-! ### Canonicalizer required-column check -/

/-- **C9**: the Canonicalizer raises its missing-column `KeyError` exactly
when at least one required field is unresolved; the error payload carries the
complete list of missing required fields (in declaration order) together with
the full observed column list; and the `area` field counts as present as soon
as either the area-code or the area-name resolution succeeds. -/
theorem missing_columns_all_reported (cols : List String) :
    (normalizeColumnCheck cols = .error (requiredMissing cols, cols) ↔
        requiredMissing cols ≠ []) ∧
    (normalizeColumnCheck cols = .ok () ↔ requiredMissing cols = []) ∧
    (∀ n : String, n ∈ requiredMissing cols ↔
      (n = "area" ∧ areaCodeCol cols = none ∧ areaNameCol cols = none) ∨
      (n = "revenue_code" ∧ revCodeCol cols = none) ∨
      (n = "time" ∧ timeCol cols = none) ∨
      (n = "value" ∧ valCol cols = none)) := by
  have hsplit : ∀ P : Prop, (requiredMissing cols = [] → P) →
      (requiredMissing cols ≠ [] → P) → P := by
    intro P h1 h2
    by_cases hm : requiredMissing cols = []
    · exact h1 hm
    · exact h2 hm
  refine ⟨?_, ?_, ?_⟩
  · refine hsplit _ (fun hm => ?_) (fun hm => ?_)
    · have he : (requiredMissing cols).isEmpty = true := by simp [hm]
      simp [normalizeColumnCheck, he, hm]
    · have he : (requiredMissing cols).isEmpty = false := by
        simp [List.isEmpty_eq_false, hm]
      simp [normalizeColumnCheck, he, hm]
  · refine hsplit _ (fun hm => ?_) (fun hm => ?_)
    · have he : (requiredMissing cols).isEmpty = true := by simp [hm]
      simp [normalizeColumnCheck, he, hm]
    · have he : (requiredMissing cols).isEmpty = false := by
        simp [List.isEmpty_eq_false, hm]
      simp [normalizeColumnCheck, he, hm]
  · intro n
    unfold requiredMissing
    cases h1 : areaCodeCol cols <;> cases h2 : areaNameCol cols <;>
      cases h3 : revCodeCol cols <;> cases h4 : timeCol cols <;> cases h5 : valCol cols <;>
      simp [List.filter, Option.orElse, h1, h2, h3, h4, h5]

/-! ### Metric classification -/

lemma mem_insertBy (le : α → α → Bool) (y x : α) (l : List α) :
    x ∈ insertBy le y l ↔ x = y ∨ x ∈ l := by
  induction l with
  | nil => simp [insertBy]
  | cons z zs ih =>
    unfold insertBy
    by_cases hle : le y z = true
    · simp [hle]
    · rw [if_neg (by simpa using hle)]
      simp only [List.mem_cons, ih]
      tauto

lemma mem_insSortBy (le : α → α → Bool) (x : α) (l : List α) :
    x ∈ insSortBy le l ↔ x ∈ l := by
  induction l with
  | nil => simp [insSortBy]
  | cons z zs ih =>
    unfold insSortBy
    rw [mem_insertBy, ih, List.mem_cons]

lemma sanitize_id_of_nonneg (df : List SubRow) (h : ∀ r ∈ df, 0 ≤ r.value) :
    (sanitize df).1 = df := by
  rw [sanitize_eq]
  show df.filterMap sanitizeStep = df
  calc df.filterMap sanitizeStep = df.filterMap some := by
        apply List.filterMap_congr
        intro r hr
        have h0 : (0 : ℚ) ≤ r.value := h r hr
        have hneg : negP r.value = false := by
          simp only [negP, decide_eq_false_iff_not, not_lt]
          linarith
        have htiny : tinyP r.value = false := by
          simp only [tinyP, Bool.and_eq_false_iff, decide_eq_false_iff_not, not_lt]
          right
          exact h0
        simp [sanitizeStep, clampTinyRow, hneg, htiny]
    _ = df := List.filterMap_some df

/-- A single raw row whose lower-cased `measure_code`, `"pc_gdp share"`,
satisfies the GDP% heuristic (the token `pc_gdp` word-bounded) and the
share heuristic (`share` as a substring) at once. -/
def rBoth : SubRow :=
  ⟨"NLD", "Netherlands", "1100", 2019, 5, "U", "percent", "PC_GDP SHARE", "m"⟩

/-- **C2, counterexample**: the Canonicalizer applies no exclusive priority:
a row satisfying both the PercentOfGDP and the ShareOfTotal heuristic is
emitted into the silver table under BOTH metric kinds, so a source row can
appear under two metric kinds, contrary to the claim. -/
theorem classifier_not_exclusive_counterexample :
    isGdpRow rBoth = true ∧ isShareRow rBoth = true ∧
    (rBoth, "pct_gdp") ∈ silverOf [rBoth] ∧
    (rBoth, "share_total") ∈ silverOf [rBoth] := by
  have hg : isGdpRow rBoth = true := by decide
  have hsh : isShareRow rBoth = true := by decide
  have hval : ∀ r ∈ [rBoth], (0 : ℚ) ≤ r.value := by
    intro r hr
    simp only [List.mem_singleton] at hr
    subst hr
    norm_num [rBoth]
  have h1 : List.filter isGdpRow [rBoth] = [rBoth] := by
    rw [List.filter_eq_self]
    intro a ha
    simp only [List.mem_singleton] at ha
    subst ha
    exact hg
  have h2 : List.filter isShareRow [rBoth] = [rBoth] := by
    rw [List.filter_eq_self]
    intro a ha
    simp only [List.mem_singleton] at ha
    subst ha
    exact hsh
  have h3 : (sanitize [rBoth]).1 = [rBoth] := sanitize_id_of_nonneg _ hval
  refine ⟨hg, hsh, ?_, ?_⟩ <;>
    · unfold silverOf
      rw [h1, h2, h3, mem_insSortBy, List.mem_append]
      simp

/-- **C2, amended**: row classification is not mutually exclusive.  On inputs
the Value Sanitizer leaves alone and the schema validation accepts (values in
`[0, 100]`, years ≥ 1900), a row appears in the silver table under `pct_gdp`
exactly when it satisfies the GDP% heuristic and under `share_total` exactly
when it satisfies the share heuristic — so a row matching both heuristics
appears under both metric kinds, a row matching neither is dropped, and no
other metric kind occurs. -/
theorem classifier_membership (rows : List SubRow)
    (h : ∀ r ∈ rows, 0 ≤ r.value ∧ r.value ≤ 100 ∧ 1900 ≤ r.year) (r : SubRow) :
    ((r, "pct_gdp") ∈ silverOf rows ↔ r ∈ rows ∧ isGdpRow r = true) ∧
    ((r, "share_total") ∈ silverOf rows ↔ r ∈ rows ∧ isShareRow r = true) ∧
    (∀ m : String, (r, m) ∈ silverOf rows → m = "pct_gdp" ∨ m = "share_total") := by
  have hg : (sanitize (rows.filter isGdpRow)).1 = rows.filter isGdpRow :=
    sanitize_id_of_nonneg _ (fun s hs => (h s (List.mem_filter.mp hs).1).1)
  have hs : (sanitize (rows.filter isShareRow)).1 = rows.filter isShareRow :=
    sanitize_id_of_nonneg _ (fun s hss => (h s (List.mem_filter.mp hss).1).1)
  have hmem : ∀ (p : SubRow × String), p ∈ silverOf rows ↔
      (p ∈ (rows.filter isGdpRow).map (fun s => (s, "pct_gdp")) ∨
       p ∈ (rows.filter isShareRow).map (fun s => (s, "share_total"))) := by
    intro p
    unfold silverOf
    rw [hg, hs, mem_insSortBy, List.mem_append]
  refine ⟨?_, ?_, ?_⟩
  · rw [hmem]
    simp [List.mem_map, List.mem_filter, Prod.ext_iff, and_comm]
  · rw [hmem]
    simp [List.mem_map, List.mem_filter, Prod.ext_iff, and_comm]
  · intro m hm
    rw [hmem] at hm
    rcases hm with hm | hm <;> rcases List.mem_map.mp hm with ⟨s, _, hsp⟩ <;>
      rcases Prod.mk.injEq .. ▸ hsp with ⟨-, rfl⟩
    · left; rfl
    · right; rfl

/-! ### Tax-to-GDP Deriver -/

lemma find?_filter_of_imp (l : List α) (p q : α → Bool)
    (h : ∀ a, p a = true → q a = true) :
    (l.filter q).find? p = l.find? p := by
  rw [List.find?_filter]
  have hfun : (fun a => decide (q a = true ∧ p a = true)) = p := by
    funext a
    by_cases hp : p a = true
    · simp [hp, h a hp]
    · simp only [Bool.not_eq_true] at hp
      simp [hp]
  rw [hfun]

lemma groupFirstAux_find? (n : Nat) : ∀ (l : List Row), l.length ≤ n →
    ∀ k : String × Int,
      (groupFirstAux n l).find? (fun p => p.1 == k)
        = (l.find? (fun r => rkey r == k)).map (fun r => (k, r.value)) := by
  induction n with
  | zero =>
    intro l h k
    have : l = [] := List.length_eq_zero.mp (Nat.le_zero.mp h)
    subst this
    rfl
  | succ n ih =>
    intro l h k
    cases l with
    | nil => rfl
    | cons r rs =>
      show ((rkey r, r.value) ::
          groupFirstAux n (rs.filter (fun s => !(rkey s == rkey r)))).find?
            (fun p => p.1 == k) = _
      by_cases hk : rkey r = k
      · subst hk
        simp [List.find?_cons]
      · have hkb : ((rkey r, r.value).1 == k) = false := by
          simp [hk]
        have hrb : (rkey r == k) = false := by simp [hk]
        rw [List.find?_cons_of_neg _ (by simp [hkb]), List.find?_cons_of_neg _ (by simp [hrb])]
        rw [ih _ ?_ k]
        · apply congrArg
          apply find?_filter_of_imp
          intro s hs
          simp only [beq_iff_eq] at hs
          have hsr : rkey s ≠ rkey r := by
            rw [hs]
            exact fun hc => hk hc.symm
          simp [hsr]
        · have := List.length_filter_le (fun s => !(rkey s == rkey r)) rs
          simp only [List.length_cons] at h
          omega

/-- `groupFirst` looks up, per key, the first row of that key in frame order. -/
lemma groupFirst_find? (l : List Row) (k : String × Int) :
    (groupFirst l).find? (fun p => p.1 == k)
      = (l.find? (fun r => rkey r == k)).map (fun r => (k, r.value)) :=
  groupFirstAux_find? l.length l (Nat.le_refl _) k

/-- `tax_to_gdp_from_pct_or_total` on a non-empty input, in closed form:
aggregate (first-total-after-sort, else category sums), then apply the global
median unit correction. -/
lemma t2g_eq (pct : List Row) (h : pct.isEmpty = false)
    (agg : List ((String × Int) × ℚ))
    (hagg : agg = if (pct.filter (fun r => isTotal r.tax_code)).isEmpty
        then groupSum (sortRows (pct.filter (fun r => !isTotal r.tax_code)))
        else groupFirst (sortRows (pct.filter (fun r => isTotal r.tax_code)))) :
    tax_to_gdp_from_pct_or_total pct =
      .ok (if median (agg.map Prod.snd) < 1
           then agg.map (fun p => (p.1, p.2 * 100)) else agg) := by
  subst hagg
  unfold tax_to_gdp_from_pct_or_total
  rw [h]
  cases hE : (pct.filter (fun r => isTotal r.tax_code)).isEmpty <;> simp [hE]

/-- **C5**: on any non-empty PercentOfGDP input the deriver first aggregates
(totals-first or category-sum), then compares the median of the aggregated
values with 1: when `median < 1` every value of the result is multiplied by
100, and when `median ≥ 1` the result is exactly the aggregation — the
correction is all-or-nothing over the result set, never per-row. -/
theorem unit_correction_all_or_nothing (pct : List Row) (h : pct ≠ []) :
    ∃ out agg, tax_to_gdp_from_pct_or_total pct = .ok out ∧
      agg = (if (pct.filter (fun r => isTotal r.tax_code)).isEmpty
          then groupSum (sortRows (pct.filter (fun r => !isTotal r.tax_code)))
          else groupFirst (sortRows (pct.filter (fun r => isTotal r.tax_code)))) ∧
      ((median (agg.map Prod.snd) < 1 ∧ out = agg.map (fun p => (p.1, p.2 * 100))) ∨
       (1 ≤ median (agg.map Prod.snd) ∧ out = agg)) := by
  have hne : pct.isEmpty = false := by simp [List.isEmpty_eq_false, h]
  refine ⟨_, _, t2g_eq pct hne _ rfl, rfl, ?_⟩
  by_cases hmed : median ((if (pct.filter (fun r => isTotal r.tax_code)).isEmpty
      then groupSum (sortRows (pct.filter (fun r => !isTotal r.tax_code)))
      else groupFirst (sortRows (pct.filter (fun r => isTotal r.tax_code)))).map
        Prod.snd) < 1
  · left
    exact ⟨hmed, by rw [if_pos hmed]⟩
  · right
    exact ⟨not_lt.mp hmed, by rw [if_neg hmed]⟩

/-- **C5, witness** at the one-row input `[⟨"AAA", 2000, "A", 12⟩]`. -/
theorem unit_correction_all_or_nothing_witness :
    ([(⟨"AAA", 2000, "A", 12⟩ : Row)] ≠ []) ∧
    (∃ out agg,
      tax_to_gdp_from_pct_or_total [(⟨"AAA", 2000, "A", 12⟩ : Row)] = .ok out ∧
      agg = (if ([(⟨"AAA", 2000, "A", 12⟩ : Row)].filter
              (fun r => isTotal r.tax_code)).isEmpty
          then groupSum (sortRows ([(⟨"AAA", 2000, "A", 12⟩ : Row)].filter
              (fun r => !isTotal r.tax_code)))
          else groupFirst (sortRows ([(⟨"AAA", 2000, "A", 12⟩ : Row)].filter
              (fun r => isTotal r.tax_code)))) ∧
      ((median (agg.map Prod.snd) < 1 ∧ out = agg.map (fun p => (p.1, p.2 * 100))) ∨
       (1 ≤ median (agg.map Prod.snd) ∧ out = agg))) :=
  ⟨by simp, unit_correction_all_or_nothing _ (by simp)⟩

/-- **C4, amended**: when the PercentOfGDP input contains a total-sentinel
row, the deriver's result is keyed by the total rows only (category rows are
never summed): the value for each `(iso3, year)` is the value of the first
total row for that key after sorting by `(iso3, year)`, scaled by the global
unit correction (`× 100` exactly when the median of the selected values is
below 1, unscaled otherwise).  In particular, with a total row of value
`30.0` present, the scale is 1 and the result is exactly the total row's
value. -/
theorem total_preferred_first_after_sort (pct : List Row)
    (h : pct.filter (fun r => isTotal r.tax_code) ≠ []) :
    ∃ out, tax_to_gdp_from_pct_or_total pct = .ok out ∧
      ∀ k : String × Int,
        out.find? (fun p => p.1 == k) =
          ((sortRows (pct.filter (fun r => isTotal r.tax_code))).find?
              (fun r => rkey r == k)).map (fun r => (k, r.value *
            (if median ((groupFirst (sortRows (pct.filter
                  (fun r => isTotal r.tax_code)))).map Prod.snd) < 1
             then 100 else 1))) := by
  have hne : pct.isEmpty = false := by
    simp only [List.isEmpty_eq_false]
    intro hc
    subst hc
    simp at h
  have hE : (pct.filter (fun r => isTotal r.tax_code)).isEmpty = false := by
    simp [List.isEmpty_eq_false, h]
  set G := groupFirst (sortRows (pct.filter (fun r => isTotal r.tax_code))) with hG
  have heq := t2g_eq pct hne G (by rw [hE, if_neg (by simp)])
  by_cases hmed : median (G.map Prod.snd) < 1
  · refine ⟨_, heq, ?_⟩
    intro k
    rw [if_pos hmed, if_pos hmed]
    rw [List.find?_map]
    have hco : ((fun p : (String × Int) × ℚ => p.1 == k)
        ∘ fun p : (String × Int) × ℚ => (p.1, p.2 * 100))
        = fun p : (String × Int) × ℚ => p.1 == k := rfl
    rw [hco, hG, groupFirst_find?, Option.map_map]
    rfl
  · refine ⟨_, heq, ?_⟩
    intro k
    rw [if_neg hmed, if_neg hmed]
    rw [hG, groupFirst_find?]
    have hfun : (fun r : Row => ((k, r.value * 1) : (String × Int) × ℚ))
        = fun r : Row => ((k, r.value) : (String × Int) × ℚ) := by
      funext r
      rw [mul_one]
    rw [hfun]

/-- The one-row input refuting C4 as stated: a lone total row carrying the
ratio-scale value `0.4`. -/
def pct4 : List Row := [⟨"AAA", 2000, "TOTAL", 2/5⟩]

/-- **C4, counterexample**: on `pct4` the first (indeed only) total row after
sorting has value `2/5`, yet the deriver returns `40` for that key — the
global unit correction (C5) multiplies the selected total by 100, so the
deriver does NOT always return the value of the first total row as the claim
states. -/
theorem total_row_value_not_returned_verbatim :
    tax_to_gdp_from_pct_or_total pct4 = .ok [(("AAA", 2000), 40)] ∧
    (sortRows (pct4.filter (fun r => isTotal r.tax_code))).find?
        (fun r => rkey r == ("AAA", 2000)) = some ⟨"AAA", 2000, "TOTAL", 2/5⟩ ∧
    ((2 : ℚ)/5 ≠ 40) := by
  have htot : isTotal "TOTAL" = true := by decide
  have h1 : pct4.filter (fun r => isTotal r.tax_code) = pct4 := by
    simp [pct4, htot]
  have h2 : sortRows pct4 = pct4 := by
    simp [pct4, sortRows, insertRow]
  have h3 : groupFirst pct4 = [(("AAA", 2000), 2/5)] := by
    simp [pct4, groupFirst, groupFirstAux, rkey]
  have h4 : median [(2 : ℚ)/5] = 2/5 := by
    simp [median, sortQ, insertQ]
  have h5 : ((2 : ℚ)/5) < 1 := by norm_num
  refine ⟨?_, ?_, by norm_num⟩
  · have heq := t2g_eq pct4 (by simp [pct4]) (groupFirst (sortRows (pct4.filter
        (fun r => isTotal r.tax_code)))) (by rw [h1, if_neg (by simp [pct4])])
    rw [h1, h2, h3] at heq
    rw [heq]
    simp only [List.map_cons, List.map_nil, h4]
    rw [if_pos h5]
    norm_num
  · rw [h1, h2]
    simp [pct4, List.find?, rkey]

/-- **C4, witness** for the amended theorem at the input
`[⟨"AAA", 2000, "TOTAL", 30⟩, ⟨"AAA", 2000, "PIT", 12⟩]` (a total row of
value 30 alongside a category row for the same pair). -/
theorem total_preferred_first_after_sort_witness :
    (([(⟨"AAA", 2000, "TOTAL", 30⟩ : Row), ⟨"AAA", 2000, "PIT", 12⟩].filter
        (fun r => isTotal r.tax_code)) ≠ []) ∧
    (∃ out, tax_to_gdp_from_pct_or_total
          [(⟨"AAA", 2000, "TOTAL", 30⟩ : Row), ⟨"AAA", 2000, "PIT", 12⟩] = .ok out ∧
      ∀ k : String × Int,
        out.find? (fun p => p.1 == k) =
          ((sortRows ([(⟨"AAA", 2000, "TOTAL", 30⟩ : Row),
                ⟨"AAA", 2000, "PIT", 12⟩].filter
              (fun r => isTotal r.tax_code))).find?
              (fun r => rkey r == k)).map (fun r => (k, r.value *
            (if median ((groupFirst (sortRows
                  ([(⟨"AAA", 2000, "TOTAL", 30⟩ : Row),
                    ⟨"AAA", 2000, "PIT", 12⟩].filter
                  (fun r => isTotal r.tax_code)))).map Prod.snd) < 1
             then 100 else 1)))) := by
  have hfil : ([(⟨"AAA", 2000, "TOTAL", 30⟩ : Row), ⟨"AAA", 2000, "PIT", 12⟩].filter
      (fun r => isTotal r.tax_code)) = [(⟨"AAA", 2000, "TOTAL", 30⟩ : Row)] := by
    have h1 : isTotal "TOTAL" = true := by decide
    have h2 : isTotal "PIT" = false := by decide
    simp [h1, h2]
  exact ⟨by rw [hfil]; simp,
    total_preferred_first_after_sort _ (by rw [hfil]; simp)⟩

/-! ### Composition Deriver -/

lemma map_eq_self_of_mem {l : List α} {f : α → α} (h : ∀ a ∈ l, f a = a) :
    l.map f = l := by
  calc l.map f = l.map id := List.map_congr_left h
    _ = l := l.map_id

lemma clampRows_nonneg (l : List Row) : ∀ r ∈ clampRows l, 0 ≤ r.value := by
  intro r hr
  rcases List.mem_map.mp hr with ⟨s, _, rfl⟩
  exact le_max_left 0 s.value

lemma keySum_nonneg (l : List Row) (hn : ∀ r ∈ l, 0 ≤ r.value) (k : String × Int) :
    0 ≤ keySum l k := by
  apply List.sum_nonneg
  intro x hx
  rcases List.mem_map.mp hx with ⟨s, hs, rfl⟩
  exact hn s (List.mem_filter.mp hs).1

lemma mem_keptRows (pct : List Row) (r : Row) (hr : r ∈ keptRows pct) :
    r ∈ clampRows (catRows pct) ∧ 0 < keySum (clampRows (catRows pct)) (rkey r) := by
  have h := List.mem_filter.mp hr
  refine ⟨h.1, ?_⟩
  simpa using h.2

lemma keySum_keptRows_eq (pct : List Row) (k : String × Int)
    (hw : ∃ r ∈ keptRows pct, rkey r = k) :
    keySum (keptRows pct) k = keySum (clampRows (catRows pct)) k := by
  obtain ⟨r0, hr0, hk0⟩ := hw
  have hpos : 0 < keySum (clampRows (catRows pct)) k := by
    have h := (mem_keptRows pct r0 hr0).2
    rwa [hk0] at h
  unfold keySum keptRows
  rw [List.filter_filter]
  have hfil : (clampRows (catRows pct)).filter
        (fun a => (rkey a == k) && decide (0 < keySum (clampRows (catRows pct)) (rkey a)))
      = (clampRows (catRows pct)).filter (fun a => rkey a == k) := by
    apply List.filter_congr
    intro s _
    by_cases hsk : rkey s = k
    · have hd : decide (0 < keySum (clampRows (catRows pct)) (rkey s)) = true := by
        rw [hsk]
        simpa using hpos
      simp [hd]
    · simp [hsk]
  rw [hfil]

lemma value_le_keySum (l : List Row) (hn : ∀ s ∈ l, 0 ≤ s.value) (r : Row)
    (hr : r ∈ l) : r.value ≤ keySum l (rkey r) := by
  apply List.single_le_sum
  · intro x hx
    rcases List.mem_map.mp hx with ⟨s, hs, rfl⟩
    exact hn s (List.mem_filter.mp hs).1
  · exact List.mem_map_of_mem Row.value (List.mem_filter.mpr ⟨hr, by simp⟩)

lemma mem_rawShares (pct : List Row) (c : CompRow) (hc : c ∈ rawShares pct) :
    ∃ r ∈ keptRows pct, c = ⟨r.iso3, r.year, r.tax_code,
        r.value / keySum (keptRows pct) (rkey r) * 100⟩ := by
  rcases List.mem_map.mp hc with ⟨r, hr, rfl⟩
  exact ⟨r, hr, rfl⟩

lemma keptRows_value_nonneg (pct : List Row) : ∀ s ∈ keptRows pct, 0 ≤ s.value :=
  fun s hs => clampRows_nonneg _ s (mem_keptRows pct s hs).1

lemma rawShares_bounds (pct : List Row) :
    ∀ c ∈ rawShares pct, 0 ≤ c.share_pct ∧ c.share_pct ≤ 100 := by
  intro c hc
  rcases mem_rawShares pct c hc with ⟨r, hr, rfl⟩
  have hS : keySum (keptRows pct) (rkey r) = keySum (clampRows (catRows pct)) (rkey r) :=
    keySum_keptRows_eq pct (rkey r) ⟨r, hr, rfl⟩
  have hpos : 0 < keySum (keptRows pct) (rkey r) := by
    rw [hS]
    exact (mem_keptRows pct r hr).2
  have hv0 : 0 ≤ r.value := keptRows_value_nonneg pct r hr
  have hvS : r.value ≤ keySum (keptRows pct) (rkey r) :=
    value_le_keySum _ (keptRows_value_nonneg pct) r hr
  constructor
  · show 0 ≤ r.value / keySum (keptRows pct) (rkey r) * 100
    positivity
  · show r.value / keySum (keptRows pct) (rkey r) * 100 ≤ 100
    have h1 : r.value / keySum (keptRows pct) (rkey r) ≤ 1 := (div_le_one hpos).mpr hvS
    calc r.value / keySum (keptRows pct) (rkey r) * 100 ≤ 1 * 100 :=
          mul_le_mul_of_nonneg_right h1 (by norm_num)
      _ = 100 := one_mul 100

lemma csum_rawShares (pct : List Row) (k : String × Int)
    (hw : ∃ c ∈ rawShares pct, ckey c = k) : csum (rawShares pct) k = 100 := by
  obtain ⟨c0, hc0, hck⟩ := hw
  rcases mem_rawShares pct c0 hc0 with ⟨r0, hr0, rfl⟩
  have hk : rkey r0 = k := hck
  subst hk
  have hS : keySum (keptRows pct) (rkey r0) = keySum (clampRows (catRows pct)) (rkey r0) :=
    keySum_keptRows_eq pct (rkey r0) ⟨r0, hr0, rfl⟩
  have hpos : 0 < keySum (keptRows pct) (rkey r0) := by
    rw [hS]
    exact (mem_keptRows pct r0 hr0).2
  unfold csum rawShares
  rw [List.filter_map, List.map_map]
  have hco : ((fun c : CompRow => ckey c == rkey r0) ∘ fun r : Row =>
      (⟨r.iso3, r.year, r.tax_code,
        r.value / keySum (keptRows pct) (rkey r) * 100⟩ : CompRow))
      = fun r : Row => rkey r == rkey r0 := rfl
  rw [hco]
  have hmapc : ((keptRows pct).filter (fun r => rkey r == rkey r0)).map
        (CompRow.share_pct ∘ fun r : Row => (⟨r.iso3, r.year, r.tax_code,
          r.value / keySum (keptRows pct) (rkey r) * 100⟩ : CompRow))
      = ((keptRows pct).filter (fun r => rkey r == rkey r0)).map
        (fun s => s.value * (100 / keySum (keptRows pct) (rkey r0))) := by
    apply List.map_congr_left
    intro s hs
    have hsk : rkey s = rkey r0 := by simpa using (List.mem_filter.mp hs).2
    show s.value / keySum (keptRows pct) (rkey s) * 100 = _
    rw [hsk, div_mul_eq_mul_div, mul_div_assoc]
  rw [hmapc, List.sum_map_mul_right]
  show keySum (keptRows pct) (rkey r0) * (100 / keySum (keptRows pct) (rkey r0)) = 100
  rw [mul_comm]
  exact div_mul_cancel₀ 100 (ne_of_gt hpos)

lemma snd_mem_enumFrom : ∀ (n : Nat) (l : List α) (p : Nat × α),
    p ∈ List.enumFrom n l → p.2 ∈ l := by
  intro n l
  induction l generalizing n with
  | nil => intro p hp; simp [List.enumFrom] at hp
  | cons a as ih =>
    intro p hp
    rw [List.enumFrom_cons, List.mem_cons] at hp
    rcases hp with rfl | hp
    · simp
    · exact List.mem_cons_of_mem a (ih (n + 1) p hp)

lemma enumFrom_map_eq_self (f : Nat × α → α) : ∀ (n : Nat) (l : List α),
    (∀ p ∈ List.enumFrom n l, f p = p.2) → (List.enumFrom n l).map f = l := by
  intro n l
  induction l generalizing n with
  | nil => intro _; simp
  | cons a as ih =>
    intro h
    rw [List.enumFrom_cons, List.map_cons]
    rw [h (n, a) (by rw [List.enumFrom_cons]; simp)]
    rw [ih (n + 1) (fun p hp => h p (by rw [List.enumFrom_cons]; exact List.mem_cons_of_mem _ hp))]

lemma residApply_eq_self (l : List CompRow) (hnn : ∀ c ∈ l, 0 ≤ c.share_pct)
    (hsum : ∀ c ∈ l, csum l (ckey c) = 100) : residApply l = l := by
  unfold residApply
  rw [List.enum_eq_enumFrom]
  apply enumFrom_map_eq_self
  intro p hp
  have hmem : p.2 ∈ l := snd_mem_enumFrom 0 l p hp
  have h100 : csum l (ckey p.2) = 100 := hsum p.2 hmem
  have hmax : max 0 p.2.share_pct = p.2.share_pct := max_eq_right (hnn p.2 hmem)
  by_cases hfm : firstMaxIdx l (ckey p.2) = some p.1
  · rw [if_pos hfm, h100]
    show ({ p.2 with share_pct := max 0 (p.2.share_pct + (100 - 100)) }) = p.2
    rw [sub_self, add_zero, hmax]
  · rw [if_neg hfm, hmax]

/-- `composition_from_pct` in closed form: it raises exactly when there are no
category rows, and otherwise returns the kept rows' raw shares — the
defensive clamping, the renormalization, the largest-remainder residual fix
and both final assertions are all no-ops in exact arithmetic. -/
lemma composition_eq (pct : List Row) :
    composition_from_pct pct =
      if (catRows pct).isEmpty then
        .error "No category-level pct_gdp rows to derive composition"
      else .ok (rawShares pct) := by
  unfold composition_from_pct
  by_cases hcat : (catRows pct).isEmpty
  · rw [if_pos hcat, if_pos hcat]
  · rw [if_neg hcat, if_neg hcat]
    by_cases hkept : (keptRows pct).isEmpty
    · rw [if_pos hkept]
      have hk : keptRows pct = [] := List.isEmpty_iff.mp hkept
      unfold rawShares
      rw [hk]
      rfl
    · rw [if_neg hkept]
      simp only []
      have hb := rawShares_bounds pct
      have hmax : (rawShares pct).map (fun c => { c with share_pct := max 0 c.share_pct })
          = rawShares pct := by
        apply map_eq_self_of_mem
        intro c hc
        rw [max_eq_right (hb c hc).1]
      rw [hmax]
      have hcs : ∀ c ∈ rawShares pct, csum (rawShares pct) (ckey c) = 100 :=
        fun c hc => csum_rawShares pct (ckey c) ⟨c, hc, rfl⟩
      have hren : (rawShares pct).map (fun c =>
          if 0 < csum (rawShares pct) (ckey c)
          then { c with share_pct := c.share_pct * (100 / csum (rawShares pct) (ckey c)) }
          else c) = rawShares pct := by
        apply map_eq_self_of_mem
        intro c hc
        rw [hcs c hc, if_pos (by norm_num : (0:ℚ) < 100)]
        have h1 : (100 : ℚ) / 100 = 1 := by norm_num
        rw [h1, mul_one]
      rw [hren]
      rw [residApply_eq_self _ (fun c hc => (hb c hc).1) hcs]
      have ha1 : (rawShares pct).all (fun c => decide (0 ≤ c.share_pct)) = true := by
        rw [List.all_eq_true]
        intro c hc
        simpa using (hb c hc).1
      have ha2 : ((rawShares pct).map ckey).all
          (fun k => round6 (csum (rawShares pct) k) == 100) = true := by
        rw [List.all_eq_true]
        intro k hk
        rcases List.mem_map.mp hk with ⟨c, hc, rfl⟩
        rw [csum_rawShares pct _ ⟨c, hc, rfl⟩]
        have hr6 : round6 100 = 100 := by
          unfold round6
          have harg : ((100 : ℚ) * 1000000) = ((100000000 : ℤ) : ℚ) := by norm_num
          rw [harg, round_intCast]
          norm_num
        simp [hr6]
      rw [if_pos ha1, if_pos ha2]

lemma round6_hundred : round6 100 = 100 := by
  unfold round6
  have harg : ((100 : ℚ) * 1000000) = ((100000000 : ℤ) : ℚ) := by norm_num
  rw [harg, round_intCast]
  norm_num

lemma keptRows_empty_iff (pct : List Row) :
    keptRows pct = [] ↔ ∀ r ∈ clampRows (catRows pct),
      keySum (clampRows (catRows pct)) (rkey r) = 0 := by
  unfold keptRows
  rw [List.filter_eq_nil_iff]
  constructor
  · intro h r hr
    have hb := h r hr
    simp only [decide_eq_true_eq] at hb
    have hle := keySum_nonneg (clampRows (catRows pct)) (clampRows_nonneg _) (rkey r)
    exact le_antisymm (not_lt.mp hb) hle
  · intro h r hr
    simp only [decide_eq_true_eq]
    rw [h r hr]
    exact lt_irrefl 0

/-- **C1**: whenever the Composition Deriver returns (rather than raising),
every `(iso3, year)` group present in the output has `share_pct` summing to
`100.0` at six-decimal rounding, and every `share_pct` lies in `[0, 100]`. -/
theorem composition_sums_100_and_bounded (pct : List Row) (out : List CompRow)
    (h : composition_from_pct pct = .ok out) :
    (∀ k ∈ out.map ckey, round6 (csum out k) = 100) ∧
    (∀ c ∈ out, 0 ≤ c.share_pct ∧ c.share_pct ≤ 100) := by
  rw [composition_eq] at h
  by_cases hcat : (catRows pct).isEmpty
  · rw [if_pos hcat] at h
    exact absurd h (by simp)
  · rw [if_neg hcat] at h
    injection h with h
    subst h
    refine ⟨?_, rawShares_bounds pct⟩
    intro k hk
    rcases List.mem_map.mp hk with ⟨c, hc, rfl⟩
    rw [csum_rawShares pct _ ⟨c, hc, rfl⟩]
    exact round6_hundred

/-- **C6, counterexample's input**: one category row of value zero. -/
def pct6 : List Row := [⟨"AAA", 2000, "CAT", 0⟩]

/-- **C6, counterexample**: with a category row present but all groups
zero-sum, `composition_from_pct` returns normally with an EMPTY table — it
does not raise — contradicting "whenever it returns normally the result is
non-empty". -/
theorem composition_returns_empty_silently :
    composition_from_pct pct6 = .ok [] ∧ catRows pct6 ≠ [] := by
  have h1 : isTotal "CAT" = false := by decide
  have hcat : catRows pct6 = pct6 := by simp [catRows, pct6, h1]
  have hclamp : clampRows pct6 = pct6 := by
    simp [clampRows, pct6, max_self]
  have hks : keySum pct6 ("AAA", 2000) = 0 := by
    simp [keySum, pct6, rkey]
  have hkept : keptRows pct6 = [] := by
    unfold keptRows
    rw [hcat, hclamp]
    rw [List.filter_eq_nil_iff]
    intro a ha
    simp only [pct6, List.mem_singleton] at ha
    subst ha
    show ¬decide (0 < keySum pct6 ("AAA", 2000)) = true
    rw [hks]
    simp
  constructor
  · rw [composition_eq, if_neg (by rw [hcat]; simp [pct6])]
    unfold rawShares
    rw [hkept]
    rfl
  · rw [hcat]
    simp [pct6]

/-- **C6, amended**: the Composition Deriver raises exactly when the category
subset is empty; when category rows exist it returns normally, and the result
is empty precisely when every category group's clamped value sum is zero (in
which case the empty table is returned silently) — otherwise the result is
non-empty. -/
theorem composition_empty_result_characterized (pct : List Row) :
    (catRows pct = [] → composition_from_pct pct
        = .error "No category-level pct_gdp rows to derive composition") ∧
    (catRows pct ≠ [] → ∃ out, composition_from_pct pct = .ok out ∧
      (out = [] ↔ ∀ r ∈ clampRows (catRows pct),
          keySum (clampRows (catRows pct)) (rkey r) = 0)) := by
  constructor
  · intro hc
    rw [composition_eq, if_pos (by simp [hc])]
  · intro hc
    refine ⟨rawShares pct, ?_, ?_⟩
    · rw [composition_eq, if_neg (by simp [List.isEmpty_iff, hc])]
    · unfold rawShares
      rw [List.map_eq_nil_iff]
      exact keptRows_empty_iff pct

/-- **C6, witness**: a pure-total input makes the category subset empty and
the deriver raise. -/
theorem composition_empty_result_characterized_witness :
    catRows [(⟨"AAA", 2000, "TAX", 5⟩ : Row)] = [] ∧
    composition_from_pct [(⟨"AAA", 2000, "TAX", 5⟩ : Row)]
      = .error "No category-level pct_gdp rows to derive composition" := by
  have h1 : isTotal "TAX" = true := by decide
  have hc : catRows [(⟨"AAA", 2000, "TAX", 5⟩ : Row)] = [] := by
    simp [catRows, h1]
  exact ⟨hc, (composition_empty_result_characterized _).1 hc⟩

/-- **C7**: any `(iso3, year)` group whose values after coercion and clamping
are all zero contributes no output rows; moreover every output row's share is
`value / group_sum × 100` with a strictly positive group sum — every division
the derivation performs has a nonzero denominator, so (in exact arithmetic)
no NaN or divide-by-zero artifact can be produced. -/
theorem zero_sum_groups_excluded (pct : List Row) (out : List CompRow)
    (h : composition_from_pct pct = .ok out) :
    (∀ k : String × Int,
        (∀ r ∈ clampRows (catRows pct), rkey r = k → r.value = 0) →
        ∀ c ∈ out, ckey c ≠ k) ∧
    (∀ c ∈ out, ∃ r ∈ keptRows pct, rkey r = ckey c ∧
        0 < keySum (keptRows pct) (rkey r) ∧
        c.share_pct = r.value / keySum (keptRows pct) (rkey r) * 100) := by
  rw [composition_eq] at h
  by_cases hcat : (catRows pct).isEmpty
  · rw [if_pos hcat] at h
    exact absurd h (by simp)
  · rw [if_neg hcat] at h
    injection h with h
    subst h
    constructor
    · intro k hzero c hc hkey
      rcases mem_rawShares pct c hc with ⟨r, hr, rfl⟩
      have hrk : rkey r = k := hkey
      have hpos := (mem_keptRows pct r hr).2
      rw [hrk] at hpos
      have hzeroSum : keySum (clampRows (catRows pct)) k = 0 := by
        unfold keySum
        apply List.sum_eq_zero
        intro x hx
        rcases List.mem_map.mp hx with ⟨s, hs, rfl⟩
        have hsmem := List.mem_filter.mp hs
        exact hzero s hsmem.1 (by simpa using hsmem.2)
      rw [hzeroSum] at hpos
      exact lt_irrefl 0 hpos
    · intro c hc
      rcases mem_rawShares pct c hc with ⟨r, hr, rfl⟩
      have hS : keySum (keptRows pct) (rkey r)
          = keySum (clampRows (catRows pct)) (rkey r) :=
        keySum_keptRows_eq pct (rkey r) ⟨r, hr, rfl⟩
      refine ⟨r, hr, rfl, ?_, rfl⟩
      rw [hS]
      exact (mem_keptRows pct r hr).2

/-! ### Concrete evaluations and witnesses -/

/-- A concrete run of the Composition Deriver: one category row of value 12
for `(NLD, 2019)` yields a single 100% share. -/
lemma composition_example :
    composition_from_pct [(⟨"NLD", 2019, "PIT", 12⟩ : Row)]
      = .ok [⟨"NLD", 2019, "PIT", 100⟩] := by
  have h1 : isTotal "PIT" = false := by decide
  have hcat : catRows [(⟨"NLD", 2019, "PIT", 12⟩ : Row)]
      = [(⟨"NLD", 2019, "PIT", 12⟩ : Row)] := by
    simp [catRows, h1]
  have hmax12 : max (0 : ℚ) 12 = 12 := max_eq_right (by norm_num)
  have hclamp : clampRows [(⟨"NLD", 2019, "PIT", 12⟩ : Row)]
      = [(⟨"NLD", 2019, "PIT", 12⟩ : Row)] := by
    simp [clampRows, hmax12]
  have hks : keySum [(⟨"NLD", 2019, "PIT", 12⟩ : Row)] ("NLD", 2019) = 12 := by
    simp [keySum, rkey]
  have hkept : keptRows [(⟨"NLD", 2019, "PIT", 12⟩ : Row)]
      = [(⟨"NLD", 2019, "PIT", 12⟩ : Row)] := by
    unfold keptRows
    rw [hcat, hclamp, List.filter_eq_self]
    intro a ha
    simp only [List.mem_singleton] at ha
    subst ha
    show decide (0 < keySum [(⟨"NLD", 2019, "PIT", 12⟩ : Row)] ("NLD", 2019)) = true
    rw [hks]
    norm_num
  have hraw : rawShares [(⟨"NLD", 2019, "PIT", 12⟩ : Row)]
      = [⟨"NLD", 2019, "PIT", 100⟩] := by
    unfold rawShares
    rw [hkept]
    simp only [List.map_cons, List.map_nil]
    have hsh : (12 : ℚ) / keySum [(⟨"NLD", 2019, "PIT", 12⟩ : Row)] ("NLD", 2019) * 100
        = 100 := by
      rw [hks]
      norm_num
    show [(⟨"NLD", 2019, "PIT",
        (12 : ℚ) / keySum [(⟨"NLD", 2019, "PIT", 12⟩ : Row)] ("NLD", 2019) * 100⟩
      : CompRow)] = _
    rw [hsh]
  rw [composition_eq, if_neg (by rw [hcat]; simp), hraw]

/-- **C1, witness**: the theorem applied to the concrete run above. -/
theorem composition_sums_100_and_bounded_witness :
    (∀ k ∈ ([(⟨"NLD", 2019, "PIT", 100⟩ : CompRow)]).map ckey,
        round6 (csum [(⟨"NLD", 2019, "PIT", 100⟩ : CompRow)] k) = 100) ∧
    (∀ c ∈ [(⟨"NLD", 2019, "PIT", 100⟩ : CompRow)],
        0 ≤ c.share_pct ∧ c.share_pct ≤ 100) :=
  composition_sums_100_and_bounded _ _ composition_example

/-- **C7, witness**: the theorem applied to the concrete run above. -/
theorem zero_sum_groups_excluded_witness :
    (∀ k : String × Int,
        (∀ r ∈ clampRows (catRows [(⟨"NLD", 2019, "PIT", 12⟩ : Row)]),
            rkey r = k → r.value = 0) →
        ∀ c ∈ [(⟨"NLD", 2019, "PIT", 100⟩ : CompRow)], ckey c ≠ k) ∧
    (∀ c ∈ [(⟨"NLD", 2019, "PIT", 100⟩ : CompRow)],
        ∃ r ∈ keptRows [(⟨"NLD", 2019, "PIT", 12⟩ : Row)], rkey r = ckey c ∧
          0 < keySum (keptRows [(⟨"NLD", 2019, "PIT", 12⟩ : Row)]) (rkey r) ∧
          c.share_pct = r.value /
            keySum (keptRows [(⟨"NLD", 2019, "PIT", 12⟩ : Row)]) (rkey r) * 100) :=
  zero_sum_groups_excluded _ _ composition_example

/-- **C2, witness** for the amended membership theorem, at the double-matching
row `rBoth`. -/
theorem classifier_membership_witness :
    ((rBoth, "pct_gdp") ∈ silverOf [rBoth] ↔ rBoth ∈ [rBoth] ∧ isGdpRow rBoth = true) ∧
    ((rBoth, "share_total") ∈ silverOf [rBoth] ↔
        rBoth ∈ [rBoth] ∧ isShareRow rBoth = true) ∧
    (∀ m : String, (rBoth, m) ∈ silverOf [rBoth] →
        m = "pct_gdp" ∨ m = "share_total") :=
  classifier_membership [rBoth]
    (by
      intro r hr
      simp only [List.mem_singleton] at hr
      subst hr
      refine ⟨by norm_num [rBoth], by norm_num [rBoth], by norm_num [rBoth]⟩)
    rBoth

/-- **C8, witness**: the resolver agreement at a concrete table and
candidate list (exact-match phase fails, substring phase hits
`TIME_PERIOD`). -/
theorem pick_col_follows_spec_witness :
    ((["TIME_PERIOD", "OBS_VALUE"].map lowerS).Nodup) ∧
    pick_col ["TIME_PERIOD", "OBS_VALUE"] ["time"]
      = pickColSpec ["TIME_PERIOD", "OBS_VALUE"] ["time"] :=
  ⟨by decide, pick_col_follows_spec _ _ (by decide)⟩

/-- **C9, witness**: the reporting characterization at the concrete column
list `["REF_AREA"]` (three of the four required fields missing). -/
theorem missing_columns_all_reported_witness :
    (normalizeColumnCheck ["REF_AREA"]
        = .error (requiredMissing ["REF_AREA"], ["REF_AREA"]) ↔
      requiredMissing ["REF_AREA"] ≠ []) ∧
    (normalizeColumnCheck ["REF_AREA"] = .ok () ↔ requiredMissing ["REF_AREA"] = []) ∧
    (∀ n : String, n ∈ requiredMissing ["REF_AREA"] ↔
      (n = "area" ∧ areaCodeCol ["REF_AREA"] = none ∧ areaNameCol ["REF_AREA"] = none) ∨
      (n = "revenue_code" ∧ revCodeCol ["REF_AREA"] = none) ∨
      (n = "time" ∧ timeCol ["REF_AREA"] = none) ∨
      (n = "value" ∧ valCol ["REF_AREA"] = none)) :=
  missing_columns_all_reported ["REF_AREA"]

/-- The boundary row of value exactly `-0.005`. -/
def rBoundary : SubRow := ⟨"AAA", "A", "T", 2000, -0.005, "", "", "", ""⟩

/-- **C10, witness**: the boundary theorem applied with empty surroundings. -/
theorem sanitizer_boundary_clamped_witness :
    rBoundary.value = -0.005 ∧
    ((sanitize (([] : List SubRow) ++ rBoundary :: ([] : List SubRow))).1 =
        (sanitize ([] : List SubRow)).1 ++
          { rBoundary with value := 0 } :: (sanitize ([] : List SubRow)).1 ∧
      (sanitize (([] : List SubRow) ++ rBoundary :: ([] : List SubRow))).2.1 =
        (sanitize ([] : List SubRow)).2.1 + ((sanitize ([] : List SubRow)).2.1 + 1) ∧
      (sanitize (([] : List SubRow) ++ rBoundary :: ([] : List SubRow))).2.2 =
        (sanitize ([] : List SubRow)).2.2 + (sanitize ([] : List SubRow)).2.2) :=
  ⟨rfl, sanitizer_boundary_clamped [] [] rBoundary rfl⟩

end TaxExplorer
